import Mathlib

/-!
Shallow embedding of the ATS-ProxyManager control plane
(`src/backend/internal/service/config_service.go`,
`src/backend/internal/service/sync_service.go`,
`src/backend/internal/repository/*.go`) in Lean 4.

Go strings are modelled as Lean `String`; `[]byte(s)` is modelled by UTF-8
encoding (`strBytes`).  Machine integers that matter (SHA-256 words) are
`Nat` reduced modulo `2^32` at every addition, exactly as Go's `uint32`
wraps.  Priorities and ports are `Int` (Go `int`).
-/

namespace ATSPM

/-- UTF-8 encoding of one character, as Go produces for `[]byte(string)`.
Written with `/`, `%` and `+`; on the ranges used these coincide with the
usual shift/mask formulation because the bit fields are disjoint. -/
def utf8Bytes (c : Char) : List Nat :=
  let v := c.toNat
  if v < 128 then [v]
  else if v < 2048 then [192 + v / 64, 128 + v % 64]
  else if v < 65536 then [224 + v / 4096, 128 + v / 64 % 64, 128 + v % 64]
  else [240 + v / 262144, 128 + v / 4096 % 64, 128 + v / 64 % 64, 128 + v % 64]

/-- Go's `[]byte(s)`: the UTF-8 bytes of a string. -/
def strBytes (s : String) : List Nat :=
  s.data.flatMap utf8Bytes

/-- One lowercase hex digit, as in Go's `encoding/hex` table `"0123456789abcdef"`. -/
def hexDigit (n : Nat) : Char :=
  if n < 10 then Char.ofNat (48 + n) else Char.ofNat (87 + n)

/-- Go's `hex.EncodeToString`: two lowercase hex digits per byte. -/
def hexEncode (bs : List Nat) : String :=
  ⟨bs.flatMap (fun b => [hexDigit (b / 16), hexDigit (b % 16)])⟩

/-! ### SHA-256 (`crypto/sha256`), over byte lists -/

def add32 (a b : Nat) : Nat := (a + b) % 4294967296

def rotr32 (n x : Nat) : Nat := x / 2 ^ n + x % 2 ^ n * 2 ^ (32 - n)

def not32 (x : Nat) : Nat := 4294967295 - x

def bigSigma0 (x : Nat) : Nat := rotr32 2 x ^^^ rotr32 13 x ^^^ rotr32 22 x

def bigSigma1 (x : Nat) : Nat := rotr32 6 x ^^^ rotr32 11 x ^^^ rotr32 25 x

def smallSigma0 (x : Nat) : Nat := rotr32 7 x ^^^ rotr32 18 x ^^^ x / 8

def smallSigma1 (x : Nat) : Nat := rotr32 17 x ^^^ rotr32 19 x ^^^ x / 1024

def chFn (x y z : Nat) : Nat := (x &&& y) ^^^ (not32 x &&& z)

def majFn (x y z : Nat) : Nat := (x &&& y) ^^^ (x &&& z) ^^^ (y &&& z)

/-- The eight 32-bit words of the SHA-256 state. -/
structure Sha256State where
  a : Nat
  b : Nat
  c : Nat
  d : Nat
  e : Nat
  f : Nat
  g : Nat
  h : Nat
deriving DecidableEq, Repr

/-- The FIPS 180-4 initial hash value, in decimal. -/
def sha256Init : Sha256State :=
  ⟨1779033703, 3144134277, 1013904242, 2773480762,
   1359893119, 2600822924, 528734635, 1541459225⟩

/-- The 64 FIPS 180-4 round constants, in decimal. -/
def sha256K : List Nat :=
  [1116352408, 1899447441, 3049323471, 3921009573,
   961987163, 1508970993, 2453635748, 2870763221,
   3624381080, 310598401, 607225278, 1426881987,
   1925078388, 2162078206, 2614888103, 3248222580,
   3835390401, 4022224774, 264347078, 604807628,
   770255983, 1249150122, 1555081692, 1996064986,
   2554220882, 2821834349, 2952996808, 3210313671,
   3336571891, 3584528711, 113926993, 338241895,
   666307205, 773529912, 1294757372, 1396182291,
   1695183700, 1986661051, 2177026350, 2456956037,
   2730485921, 2820302411, 3259730800, 3345764771,
   3516065817, 3600352804, 4094571909, 275423344,
   430227734, 506948616, 659060556, 883997877,
   958139571, 1322822218, 1537002063, 1747873779,
   1955562222, 2024104815, 2227730452, 2361852424,
   2428436474, 2756734187, 3204031479, 3329325298]

/-- One SHA-256 round for round word `w` and constant `k`. -/
def sha256Round (st : Sha256State) (kw : Nat × Nat) : Sha256State :=
  let t1 := add32 st.h (add32 (bigSigma1 st.e) (add32 (chFn st.e st.f st.g) (add32 kw.1 kw.2)))
  let t2 := add32 (bigSigma0 st.a) (majFn st.a st.b st.c)
  ⟨add32 t1 t2, st.a, st.b, st.c, add32 st.d t1, st.e, st.f, st.g⟩

/-- Big-endian 32-bit word from four bytes. -/
def word32 (b0 b1 b2 b3 : Nat) : Nat := ((b0 * 256 + b1) * 256 + b2) * 256 + b3

/-- The sixteen message words of one 64-byte block. -/
def blockWords : List Nat → List Nat
  | b0 :: b1 :: b2 :: b3 :: rest => word32 b0 b1 b2 b3 :: blockWords rest
  | _ => []

/-- Extend 16 message words to the 64-entry schedule. -/
def sha256Schedule (ws : List Nat) : List Nat :=
  (List.range 48).foldl
    (fun acc _ =>
      let n := acc.length
      let next := add32 (smallSigma1 (acc.getD (n - 2) 0))
        (add32 (acc.getD (n - 7) 0)
          (add32 (smallSigma0 (acc.getD (n - 15) 0)) (acc.getD (n - 16) 0)))
      acc ++ [next])
    ws

/-- Compress one 64-byte block into the running state. -/
def sha256Compress (st : Sha256State) (block : List Nat) : Sha256State :=
  let ws := sha256Schedule (blockWords block)
  let r := (sha256K.zip ws).foldl sha256Round st
  ⟨add32 st.a r.a, add32 st.b r.b, add32 st.c r.c, add32 st.d r.d,
   add32 st.e r.e, add32 st.f r.f, add32 st.g r.g, add32 st.h r.h⟩

/-- Split a byte list into 64-byte blocks; `fuel` bounds the recursion and is
instantiated with the length of the list. -/
def chunk64 : Nat → List Nat → List (List Nat)
  | 0, _ => []
  | _ + 1, [] => []
  | fuel + 1, l => l.take 64 :: chunk64 fuel (l.drop 64)

/-- SHA-256 padding: `0x80`, zeros to 56 mod 64, 8-byte big-endian bit length. -/
def sha256Pad (msg : List Nat) : List Nat :=
  let len := msg.length
  let r := (len + 1) % 64
  let zeros := if r ≤ 56 then 56 - r else 120 - r
  let bits := len * 8
  msg ++ 128 :: List.replicate zeros 0 ++
    [bits / 2 ^ 56 % 256, bits / 2 ^ 48 % 256, bits / 2 ^ 40 % 256, bits / 2 ^ 32 % 256,
     bits / 2 ^ 24 % 256, bits / 2 ^ 16 % 256, bits / 2 ^ 8 % 256, bits % 256]

/-- The four big-endian bytes of a 32-bit word. -/
def wordBytes (w : Nat) : List Nat := [w / 2 ^ 24 % 256, w / 2 ^ 16 % 256, w / 2 ^ 8 % 256, w % 256]

/-- SHA-256 digest (32 bytes) of a byte list. -/
def sha256Bytes (msg : List Nat) : List Nat :=
  let padded := sha256Pad msg
  let st := (chunk64 padded.length padded).foldl sha256Compress sha256Init
  wordBytes st.a ++ wordBytes st.b ++ wordBytes st.c ++ wordBytes st.d ++
  wordBytes st.e ++ wordBytes st.f ++ wordBytes st.g ++ wordBytes st.h

/-- Lowercase-hex SHA-256 of a byte list, Go's `hex.EncodeToString(h.Sum(nil))`. -/
def sha256Hex (msg : List Nat) : String := hexEncode (sha256Bytes msg)

/-! ### Go's `sort.Slice` with a `Priority <` comparator

`generateParentConfig`, `generateSNIYaml` and `generateIPAllowYaml` all call
`sort.Slice(xs, func(i, j int) bool { return xs[i].Priority < xs[j].Priority })`.
For slices of length at most 12, Go's pdqsort runs plain insertion sort with
this comparator, which the following definitions reproduce exactly; for longer
slices Go still produces a list sorted by the comparator but may reorder
equal-priority entries. -/

/-- Insert `x` before the first element `y` with `lt x y`, after all others. -/
def goInsert (lt : α → α → Bool) (x : α) : List α → List α
  | [] => [x]
  | y :: ys => if lt x y then x :: y :: ys else y :: goInsert lt x ys

/-- Insertion sort with a Go-style strict comparator. -/
def goSortSlice (lt : α → α → Bool) (l : List α) : List α :=
  l.foldl (fun acc x => goInsert lt x acc) []

/-! ### IP parsing (`net.ParseIP`, `net.ParseCIDR`), IPv4 side exact -/

/-- An IPv4 address as four byte values. -/
structure IPv4 where
  a : Nat
  b : Nat
  c : Nat
  d : Nat
deriving DecidableEq, Repr

def digitVal (c : Char) : Option Nat :=
  if 48 ≤ c.toNat ∧ c.toNat ≤ 57 then some (c.toNat - 48) else none

/-- One dotted-quad field, as Go's IPv4 parser accepts it: 1–3 decimal digits,
no leading zero on a multi-digit field, value at most 255. -/
def parseV4Field (cs : List Char) : Option Nat :=
  match cs.mapM digitVal with
  | none => none
  | some ds =>
    if ds = [] then none
    else if 3 < ds.length then none
    else if 1 < ds.length ∧ ds.headD 0 = 0 then none
    else
      let v := ds.foldl (fun acc d => acc * 10 + d) 0
      if v ≤ 255 then some v else none

/-- Go's IPv4 literal parser: exactly four dot-separated fields. -/
def parseIPv4 (cs : List Char) : Option IPv4 :=
  match cs.splitOn '.' with
  | [f1, f2, f3, f4] =>
    match parseV4Field f1, parseV4Field f2, parseV4Field f3, parseV4Field f4 with
    | some a, some b, some c, some d => some ⟨a, b, c, d⟩
    | _, _, _, _ => none
  | _ => none

def hexCharVal (c : Char) : Option Nat :=
  if 48 ≤ c.toNat ∧ c.toNat ≤ 57 then some (c.toNat - 48)
  else if 97 ≤ c.toNat ∧ c.toNat ≤ 102 then some (c.toNat - 87)
  else if 65 ≤ c.toNat ∧ c.toNat ≤ 70 then some (c.toNat - 55)
  else none

/-- Consume a run of leading hex digits (Go's `xtoi`): value and rest. -/
def takeHexGroup : List Char → Nat → Nat × Nat × List Char
  | [], acc => (acc, 0, [])
  | c :: cs, acc =>
    match hexCharVal c with
    | none => (acc, 0, c :: cs)
    | some d =>
      let (v, n, rest) := takeHexGroup cs (acc * 16 + d)
      (v, n + 1, rest)

/-- Loop of Go's `parseIPv6`: `i` bytes filled so far, `ell` true once a `::`
was seen.  Returns whether the remaining text completes a valid IPv6 literal.
The 16 result bytes are not needed by any claim and are not materialised. -/
def parseIPv6Loop : Nat → List Char → Nat → Bool → Bool
  | 0, _, _, _ => false
  | fuel + 1, cs, i, ell =>
    if 16 ≤ i then false
    else
      let (v, n, rest) := takeHexGroup cs 0
      if n = 0 then false
      else if 65535 < v then false
      else if rest.headD ' ' = '.' then
        -- trailing IPv4: Go re-parses from the start of the current group
        if ¬ ell ∧ i ≠ 12 then false
        else if 16 < i + 4 then false
        else (parseIPv4 cs).isSome && (if i + 4 < 16 then ell else ¬ ell)
      else
        let i' := i + 2
        match rest with
        | [] => if i' < 16 then ell else ¬ ell
        | ':' :: rest1 =>
          match rest1 with
          | [] => false
          | ':' :: rest2 =>
            if ell then false
            else
              match rest2 with
              | [] => decide (i' < 16)
              | _ => parseIPv6Loop fuel rest2 i' true
          | _ => parseIPv6Loop fuel rest1 i' ell
        | _ => false

/-- Go's `parseIPv6`, validity only. -/
def parseIPv6Ok (cs : List Char) : Bool :=
  match cs with
  | ':' :: ':' :: rest =>
    match rest with
    | [] => true
    | _ => parseIPv6Loop (rest.length + 1) rest 0 true
  | _ => parseIPv6Loop (cs.length + 1) cs 0 false

/-- Go's `net.ParseIP`: dispatch on the first `.` or `:` encountered. -/
def goParseIPOk (cs : List Char) : Bool :=
  match cs.find? (fun c => c == '.' || c == ':') with
  | some '.' => (parseIPv4 cs).isSome
  | some ':' => parseIPv6Ok cs
  | _ => false

/-- `net.ParseIP(s) != nil` on a Go string. -/
def goParseIP (s : String) : Bool := goParseIPOk s.data

/-- Go's `IP.String()` for a 4-byte address: dotted decimal. -/
def ipv4String (ip : IPv4) : String :=
  toString ip.a ++ "." ++ toString ip.b ++ "." ++ toString ip.c ++ "." ++ toString ip.d

/-- The 32-bit value of an IPv4 address (big-endian byte composition). -/
def ipv4Nat (ip : IPv4) : Nat :=
  ((ip.a * 256 + ip.b) * 256 + ip.c) * 256 + ip.d

/-- Number of mask bits that fall on byte `idx` of a `/n` IPv4 mask. -/
def maskBitsAt (n idx : Nat) : Nat := min 8 (n - 8 * idx)

/-- One byte of `ip & mask`, Go's `ip.Mask(CIDRMask(n, 32))`. -/
def maskByte (b n idx : Nat) : Nat := b / 2 ^ (8 - maskBitsAt n idx) * 2 ^ (8 - maskBitsAt n idx)

/-- One byte of `start | ^mask`, the end of the range in `cidrToRange`. -/
def orInvMaskByte (b n idx : Nat) : Nat := maskByte b n idx + (2 ^ (8 - maskBitsAt n idx) - 1)

/-- Network address of an IPv4 CIDR (Go masks the parsed IP in `ParseCIDR`). -/
def rangeStart (ip : IPv4) (n : Nat) : IPv4 :=
  ⟨maskByte ip.a n 0, maskByte ip.b n 1, maskByte ip.c n 2, maskByte ip.d n 3⟩

/-- Broadcast address of an IPv4 CIDR, computed bytewise as in `cidrToRange`. -/
def rangeEnd (ip : IPv4) (n : Nat) : IPv4 :=
  ⟨orInvMaskByte ip.a n 0, orInvMaskByte ip.b n 1, orInvMaskByte ip.c n 2, orInvMaskByte ip.d n 3⟩

/-- Go's `net.ParseCIDR`, restricted to IPv4 dotted-quad addresses: split at
the first `/`, parse the address and a decimal prefix length of at most 32.
For every input where this returns `none` — no slash, bad address or bad
prefix, or an IPv6 address — the Go code of `cidrToRange` falls back to
returning its argument unchanged (IPv6 networks fail the `To4()` check). -/
def goParseCIDRv4 (s : String) : Option (IPv4 × Nat) :=
  match s.data.span (fun c => c ≠ '/') with
  | (_, []) => none
  | (addr, _ :: maskCs) =>
    match parseIPv4 addr, maskCs.mapM digitVal with
    | some ip, some ds =>
      if ds = [] then none
      else
        let n := ds.foldl (fun acc d => acc * 10 + d) 0
        if n ≤ 32 then some (ip, n) else none
    | _, _ => none

/-! ### The config compiler (`config_service.go`) -/

inductive RuleAction where
  | direct
  | parent
deriving DecidableEq, Repr

inductive ACLAction where
  | allow
  | deny
deriving DecidableEq, Repr

structure DomainRule where
  domain : String
  action : RuleAction
  priority : Int
deriving DecidableEq, Repr

structure IPRangeRule where
  cidr : String
  action : RuleAction
  priority : Int
deriving DecidableEq, Repr

structure ParentProxy where
  address : String
  port : Int
  priority : Int
  enabled : Bool
deriving DecidableEq, Repr

structure ClientACLRule where
  cidr : String
  action : ACLAction
  priority : Int
deriving DecidableEq, Repr

/-- `cidrToRange`: CIDR notation to a dash-separated IP range; on parse
failure (in particular for a bare IP, which has no `/`) the input is
returned unchanged. -/
def cidrToRange (cidr : String) : String :=
  match goParseCIDRv4 cidr with
  | none => cidr
  | some (ip, n) => ipv4String (rangeStart ip n) ++ "-" ++ ipv4String (rangeEnd ip n)

/-- `domainToATS`: a selector with the `*.` wildcard marker loses its leading
`*` (Go's `strings.HasPrefix(domain, "*.")` then `domain[1:]`); anything else
is unchanged. -/
def domainToATS (domain : String) : String :=
  match domain.data with
  | '*' :: '.' :: rest => ⟨'.' :: rest⟩
  | _ => domain

/-- `domainToSNI`: a selector starting with `.` gains a leading `*` (Go's
`strings.HasPrefix(fqdn, ".")` then `"*" + fqdn`); anything else unchanged. -/
def domainToSNI (domain : String) : String :=
  match domain.data with
  | '.' :: rest => ⟨'*' :: '.' :: rest⟩
  | _ => domain

/-- Go's `strings.Join` with a separator. -/
def joinSep (sep : String) : List String → String
  | [] => ""
  | [x] => x
  | x :: xs => x ++ sep ++ joinSep sep xs

/-- Sort by `Priority <` as `sort.Slice` does (see `goSortSlice`). -/
def sortDomainRules (l : List DomainRule) : List DomainRule :=
  goSortSlice (fun a b => a.priority < b.priority) l

def sortIPRangeRules (l : List IPRangeRule) : List IPRangeRule :=
  goSortSlice (fun a b => a.priority < b.priority) l

def sortParentProxies (l : List ParentProxy) : List ParentProxy :=
  goSortSlice (fun a b => a.priority < b.priority) l

def sortClientACL (l : List ClientACLRule) : List ClientACLRule :=
  goSortSlice (fun a b => a.priority < b.priority) l

/-- The semicolon-joined `addr:port` list of enabled parents, or `""`. -/
def parentListString (parentProxies : List ParentProxy) : String :=
  let enabled := (sortParentProxies parentProxies).filter (fun pp => pp.enabled)
  joinSep ";" (enabled.map (fun pp => pp.address ++ ":" ++ toString pp.port))

/-- The fixed infrastructure preamble of `parent.config`. -/
def parentConfigPreamble : String :=
  "# Localhost\n" ++
  "dest_ip=127.0.0.0-127.255.255.255 go_direct=true\n" ++
  "# Link-local\n" ++
  "dest_ip=169.254.0.0-169.254.255.255 go_direct=true\n" ++
  "# Kubernetes\n" ++
  "dest_domain=.svc.cluster.local go_direct=true\n" ++
  "dest_domain=.cluster.local go_direct=true\n" ++
  "dest_domain=localhost go_direct=true\n" ++
  "\n"

/-- The `dest_ip=` line emitted for one IP-range rule ("" when skipped). -/
def ipRangeLine (parentStr : String) (ir : IPRangeRule) : String :=
  if ir.action = .direct then
    "dest_ip=" ++ cidrToRange ir.cidr ++ " go_direct=true\n"
  else if ir.action = .parent ∧ parentStr ≠ "" then
    "dest_ip=" ++ cidrToRange ir.cidr ++ " parent=\"" ++ parentStr ++
      "\" round_robin=strict go_direct=false\n"
  else ""

/-- The `dest_domain=` line emitted for one domain rule ("" when skipped). -/
def domainLine (parentStr : String) (dr : DomainRule) : String :=
  if dr.action = .direct then
    "dest_domain=" ++ domainToATS dr.domain ++ " go_direct=true\n"
  else if dr.action = .parent ∧ parentStr ≠ "" then
    "dest_domain=" ++ domainToATS dr.domain ++ " parent=\"" ++ parentStr ++
      "\" round_robin=strict go_direct=false\n"
  else ""

/-- The trailing default rule of `parent.config`. -/
def defaultRuleLine (parentStr : String) (defaultAction : RuleAction) : String :=
  if defaultAction = .parent ∧ parentStr ≠ "" then
    "dest_domain=. parent=\"" ++ parentStr ++ "\" round_robin=strict go_direct=false\n"
  else "dest_domain=. go_direct=true\n"

/-- `generateParentConfig` from `config_service.go`: preamble, IP-range rules,
domain rules, default rule, each rule block in `sort.Slice`-by-priority order. -/
def generateParentConfig (ipRanges : List IPRangeRule) (domainRules : List DomainRule)
    (parentProxies : List ParentProxy) (defaultAction : RuleAction) : String :=
  let parentStr := parentListString parentProxies
  parentConfigPreamble ++
  String.join ((sortIPRangeRules ipRanges).map (ipRangeLine parentStr)) ++
  String.join ((sortDomainRules domainRules).map (domainLine parentStr)) ++
  defaultRuleLine parentStr defaultAction

/-- `generateSNIYaml`: one entry per `direct` domain rule, in priority order. -/
def generateSNIYaml (domainRules : List DomainRule) : String :=
  "sni:\n" ++
  String.join ((sortDomainRules domainRules).map (fun dr =>
    if dr.action = .direct then
      "  - fqdn: '" ++ domainToSNI dr.domain ++ "'\n    tunnel_route: direct\n"
    else ""))

/-- One `ip_allow.yaml` entry. -/
def ipAllowEntry (cidr action : String) : String :=
  "  - apply: in\n    ip_addrs: " ++ cidr ++ "\n    action: " ++ action ++ "\n    methods: ALL\n"

/-- `generateIPAllowYaml`: user entries in priority order, then the two
appended deny-all entries. -/
def generateIPAllowYaml (rules : List ClientACLRule) : String :=
  "ip_allow:\n" ++
  String.join ((sortClientACL rules).map (fun r =>
    ipAllowEntry r.cidr (if r.action = .deny then "set_deny" else "set_allow"))) ++
  ipAllowEntry "0/0" "set_deny" ++
  ipAllowEntry "::/0" "set_deny"

/-- `GenerateConfigHash` over already-generated artifacts: SHA-256 of the
bytes of `parent.config`, then `sni.yaml`, then `ip_allow.yaml`, written into
one hash state, hex-encoded. -/
def generateConfigHash (parentConfig sniYaml ipAllowYaml : String) : String :=
  sha256Hex (strBytes parentConfig ++ strBytes sniYaml ++ strBytes ipAllowYaml)

/-- Following the spec's words: the fingerprint is the hex-encoded SHA-256 of
the concatenation `parent_config || sni_yaml || ip_allow_yaml` (the texts are
concatenated first, then hashed). -/
def specFingerprint (parentConfig sniYaml ipAllowYaml : String) : String :=
  sha256Hex (strBytes (parentConfig ++ sniYaml ++ ipAllowYaml))

/-- A fingerprint collision: two distinct byte strings with one fingerprint. -/
def FingerprintCollision : Prop :=
  ∃ x y : List Nat, x ≠ y ∧ sha256Hex x = sha256Hex y

/-! ### Request validation (`validateRules`, parent-proxy loop) -/

structure ParentProxyInput where
  address : String
  port : Int
deriving DecidableEq, Repr

/-- The validation errors collected for one parent-proxy entry in
`validateRules` (message text abbreviated; only emptiness matters): empty or
non-`net.ParseIP` address, then port outside `[1024, 65535]`. -/
def parentProxyErrors (pp : ParentProxyInput) : List String :=
  (if pp.address = "" then ["address cannot be empty"]
   else if ¬ goParseIP pp.address then ["not a valid IP address"]
   else []) ++
  (if pp.port < 1024 ∨ 65535 < pp.port then ["port is out of range (1024-65535)"] else [])

/-- A parent-proxy entry passes validation when it contributes no errors. -/
def validParentProxy (pp : ParentProxyInput) : Bool :=
  parentProxyErrors pp = []

/-- Spec-side notion used by the claim: the address is an IPv4 literal. -/
def isIPv4Literal (s : String) : Bool :=
  (parseIPv4 s.data).isSome

/-! ### Client-ACL defaulting in `ConfigService.Create` -/

structure ClientACLInput where
  cidr : String
  action : ACLAction
  priority : Int
deriving DecidableEq, Repr

/-- The three default client-ACL rules `Create` inserts. -/
def defaultClientACLInputs : List ClientACLInput :=
  [⟨"127.0.0.1", .allow, 10⟩, ⟨"::1", .allow, 20⟩, ⟨"10.0.0.0/8", .allow, 30⟩]

/-- `Create`: the client-ACL inputs actually inserted — the request's list,
or the defaults when that list is empty. -/
def aclInputsForCreate (reqClientACL : List ClientACLInput) : List ClientACLInput :=
  if reqClientACL = [] then defaultClientACLInputs else reqClientACL

/-- The rows inserted for the chosen ACL inputs (config id omitted). -/
def clientACLRows (inputs : List ClientACLInput) : List ClientACLRule :=
  inputs.map (fun acl => ⟨acl.cidr, acl.action, acl.priority⟩)

/-! ### Sync service (`sync_service.go`) -/

/-- A row of the `proxies` table; ids are the UUID strings Go compares. -/
structure ProxyRow where
  id : String
  hostname : String
  isOnline : Bool
  lastSeen : Option Int
  currentConfigHash : Option String
  registeredIP : Option String
  captureLogsUntil : Option Int
deriving DecidableEq, Repr

/-- An active configuration with the child rows its compilation reads,
in the order the repositories return them (`ORDER BY priority`). -/
structure ActiveConfig where
  configHash : Option String
  defaultAction : RuleAction
  domains : List DomainRule
  ipRanges : List IPRangeRule
  parents : List ParentProxy
  clientACL : List ClientACLRule
deriving DecidableEq, Repr

/-- `GenerateConfigFiles` for a configuration's rule rows. -/
def generateConfigFilesOf (c : ActiveConfig) : String × String × String :=
  (generateParentConfig c.ipRanges c.domains c.parents c.defaultAction,
   generateSNIYaml c.domains,
   generateIPAllowYaml c.clientACL)

/-- `GenerateConfigHash` for a configuration's rule rows. -/
def generateConfigHashOf (c : ActiveConfig) : String :=
  let (pc, sni, ipa) := generateConfigFilesOf c
  generateConfigHash pc sni ipa

structure ConfigFiles where
  parentConfig : String
  sniYaml : String
  ipAllowYaml : String
deriving DecidableEq, Repr

structure ConfigResponse where
  unchanged : Bool
  hash : String
  config : Option ConfigFiles
  captureLogs : Bool
  captureUntil : Option Int
deriving DecidableEq, Repr

structure GetConfigResult where
  resp : ConfigResponse
  proxy : ProxyRow
  cfg : Option ActiveConfig
deriving DecidableEq, Repr

/-- `SyncService.GetConfig` for a known hostname: `proxy` is the row found by
hostname, `active` the active configuration assigned to it (if any), `now` the
current time.  Returns the response plus the updated proxy and configuration
rows.  `UpdateLastSeen` sets `last_seen = NOW(), is_online = true`. -/
def getConfig (proxy : ProxyRow) (active : Option ActiveConfig) (currentHash : String)
    (now : Int) : GetConfigResult :=
  let proxy1 : ProxyRow := { proxy with lastSeen := some now, isOnline := true }
  let cap : Bool := match proxy.captureLogsUntil with
    | some t => now < t
    | none => false
  let capUntil : Option Int := if cap then proxy.captureLogsUntil else none
  match active with
  | none => ⟨⟨true, "", none, cap, capUntil⟩, proxy1, none⟩
  | some cfg =>
    let configHash := cfg.configHash.getD ""
    if configHash ≠ "" ∧ configHash = currentHash then
      ⟨⟨true, "", none, cap, capUntil⟩, proxy1, some cfg⟩
    else
      let (pc, sni, ipa) := generateConfigFilesOf cfg
      let finalHash := if configHash = "" then generateConfigHashOf cfg else configHash
      let cfg' := if configHash = "" then { cfg with configHash := some finalHash } else cfg
      ⟨⟨false, finalHash, some ⟨pc, sni, ipa⟩, cap, capUntil⟩, proxy1, some cfg'⟩

structure RegisterRequest where
  hostname : String
  proxyID : String
  remoteIP : String
deriving DecidableEq, Repr

inductive RegisterOutcome where
  | badRequest
  | conflict
  | registered (proxyID : String) (createdNew : Bool)
deriving DecidableEq, Repr

/-- Modelled from the spec: `ProxyRepo.UpdateRegisteredIP` (called by
`Register` but absent from the sources; the spec says re-registration
refreshes `registered_ip`). -/
def updateRegisteredIP (p : ProxyRow) (ip : String) : ProxyRow :=
  { p with registeredIP := some ip }

/-- `ProxyRepo.UpdateLastSeen`: `last_seen = NOW(), is_online = true`. -/
def updateLastSeen (p : ProxyRow) (now : Int) : ProxyRow :=
  { p with lastSeen := some now, isOnline := true }

/-- `SyncService.Register`: `existing` is the row found by hostname (if any);
`newID` stands for the server-generated id of a freshly created row.  Returns
the outcome and the resulting row for this hostname. -/
def register (existing : Option ProxyRow) (req : RegisterRequest) (newID : String)
    (now : Int) : RegisterOutcome × Option ProxyRow :=
  if req.hostname = "" then (.badRequest, existing)
  else
    match existing with
    | some ex =>
      let sameIP : Bool := match ex.registeredIP with
        | some ip => ip = req.remoteIP
        | none => false
      let sameID : Bool := req.proxyID ≠ "" ∧ req.proxyID = ex.id
      if ex.isOnline ∧ ¬ sameIP ∧ ¬ sameID then (.conflict, some ex)
      else (.registered ex.id false, some (updateLastSeen (updateRegisteredIP ex req.remoteIP) now))
    | none =>
      (.registered newID true,
       some ⟨newID, req.hostname, true, some now, none, some req.remoteIP, none⟩)

/-- `SyncService.Ack` for a known hostname: on status `"ok"`,
`ProxyRepo.UpdateConfigHash` sets the observed fingerprint (plus liveness);
on any other status the row is untouched. -/
def ack (proxy : ProxyRow) (hash status : String) (now : Int) : ProxyRow :=
  if status = "ok" then
    { proxy with currentConfigHash := some hash, lastSeen := some now, isOnline := true }
  else proxy

/-! ### Configuration lifecycle (`ConfigService.Approve`, `ConfigRepo`) -/

inductive ConfigStatus where
  | draft
  | pendingApproval
  | approved
  | active
deriving DecidableEq, Repr

/-- A row of the `configs` table, with the fields approval touches. -/
structure CfgRow where
  id : Nat
  status : ConfigStatus
  submittedBy : Option Nat
  approvedBy : Option Nat
  configHash : Option String
deriving DecidableEq, Repr

/-- The proxies assigned to two configurations overlap (`config_proxies`
subquery of `DeactivateOthers`). -/
def sharesProxy (assigns : Nat → List Nat) (c1 c2 : Nat) : Bool :=
  (assigns c1).any (fun p => (assigns c2).contains p)

/-- Effect of `ConfigRepo.DeactivateOthers` on one row: an active row other
than the approved one that shares a proxy with it becomes `approved`. -/
def deactivateEntry (assigns : Nat → List Nat) (activeID : Nat) (d : CfgRow) : CfgRow :=
  if d.status = .active ∧ d.id ≠ activeID ∧ sharesProxy assigns d.id activeID then
    { d with status := .approved }
  else d

/-- Effect of `ConfigRepo.Approve` on one row: the pending row with the given
id becomes `active` with `approved_by` and `config_hash` set. -/
def repoApproveEntry (uid id : Nat) (hash : String) (d : CfgRow) : CfgRow :=
  if d.id = id ∧ d.status = .pendingApproval then
    { d with status := .active, approvedBy := some uid, configHash := some hash }
  else d

/-- Both row updates of a successful approval, in order: deactivate the
displaced rows, then activate the approved one. -/
def approveEntry (assigns : Nat → List Nat) (uid id : Nat) (hash : String) (d : CfgRow) : CfgRow :=
  repoApproveEntry uid id hash (deactivateEntry assigns id d)

inductive SvcError where
  | notFound
  | invalidStatus
  | forbidden
deriving DecidableEq, Repr

/-- `ConfigService.Approve`: look the row up, require `pending_approval`,
require the caller to be the submitter, then run `DeactivateOthers` followed
by `ConfigRepo.Approve`.  `hash` stands for the `GenerateConfigHash` result. -/
def approveSvc (assigns : Nat → List Nat) (id uid : Nat) (hash : String)
    (s : List CfgRow) : Except SvcError (List CfgRow) :=
  match s.find? (fun c => c.id = id) with
  | none => .error .notFound
  | some c =>
    if c.status ≠ .pendingApproval then .error .invalidStatus
    else if c.submittedBy ≠ some uid then .error .forbidden
    else .ok ((s.map (deactivateEntry assigns id)).map (repoApproveEntry uid id hash))

/-- The table state after an approval call (failed calls change nothing). -/
def approveStep (assigns : Nat → List Nat) (id uid : Nat) (hash : String)
    (s : List CfgRow) : List CfgRow :=
  match approveSvc assigns id uid hash s with
  | .ok s' => s'
  | .error _ => s

/-- The table state after a finite sequence of approval calls
`(id, uid, hash)`. -/
def runApprovals (assigns : Nat → List Nat) (ops : List (Nat × Nat × String))
    (s : List CfgRow) : List CfgRow :=
  ops.foldl (fun st op => approveStep assigns op.1 op.2.1 op.2.2 st) s

/-- Ids are pairwise distinct (the table's primary key). -/
def NodupIds (s : List CfgRow) : Prop :=
  s.Pairwise (fun c1 c2 => c1.id ≠ c2.id)

/-- At most one active configuration per proxy: no two distinct rows are both
active and assigned a common proxy. -/
def OnePerProxy (assigns : Nat → List Nat) (s : List CfgRow) : Prop :=
  s.Pairwise (fun c1 c2 =>
    c1.status = .active → c2.status = .active → sharesProxy assigns c1.id c2.id = false)

/-- Every active configuration was approved by its submitter. -/
def ApprovedBySubmitter (s : List CfgRow) : Prop :=
  ∀ c ∈ s, c.status = .active → c.approvedBy = c.submittedBy

/-! ## Theorems -/

/-! ### The `sort.Slice`-by-priority model: sortedness and stability -/

theorem mem_goInsert {α : Type} (lt : α → α → Bool) (x z : α) :
    ∀ l : List α, z ∈ goInsert lt x l ↔ z = x ∨ z ∈ l := by
  intro l
  induction l with
  | nil => simp [goInsert]
  | cons y ys ih =>
    unfold goInsert
    by_cases h : lt x y = true
    · rw [if_pos h]
      simp only [List.mem_cons]
    · rw [if_neg h]
      simp only [List.mem_cons, ih]
      tauto

theorem goInsert_sorted {α : Type} (key : α → Int) (x : α) (l : List α)
    (hl : l.Pairwise (fun a b => key a ≤ key b)) :
    (goInsert (fun a b => key a < key b) x l).Pairwise (fun a b => key a ≤ key b) := by
  induction l with
  | nil => simp [goInsert]
  | cons y ys ih =>
    rw [List.pairwise_cons] at hl
    by_cases h : key x < key y
    · simp only [goInsert, decide_eq_true_eq, h, if_pos]
      refine List.pairwise_cons.mpr ⟨?_, List.pairwise_cons.mpr ⟨hl.1, hl.2⟩⟩
      intro z hz
      rcases List.mem_cons.mp hz with hz | hz
      · subst hz
        exact le_of_lt h
      · exact le_trans (le_of_lt h) (hl.1 z hz)
    · simp only [goInsert, decide_eq_true_eq, h, if_neg, not_false_iff]
      refine List.pairwise_cons.mpr ⟨?_, ih hl.2⟩
      intro z hz
      rcases (mem_goInsert _ x z ys).mp hz with hz | hz
      · subst hz
        omega
      · exact hl.1 z hz

theorem goInsert_filter {α : Type} (key : α → Int) (x : α) (l : List α) (p : Int)
    (hl : l.Pairwise (fun a b => key a ≤ key b)) :
    (goInsert (fun a b => key a < key b) x l).filter (fun z => key z = p) =
      l.filter (fun z => key z = p) ++ (if key x = p then [x] else []) := by
  induction l with
  | nil =>
    simp [goInsert, List.filter]
    split <;> simp_all
  | cons y ys ih =>
    rw [List.pairwise_cons] at hl
    by_cases h : key x < key y
    · simp only [goInsert, decide_eq_true_eq, h, if_pos]
      by_cases hx : key x = p
      · have hys : (y :: ys).filter (fun z => key z = p) = [] := by
          rw [List.filter_eq_nil_iff]
          intro z hz
          simp only [decide_eq_true_eq]
          rcases List.mem_cons.mp hz with hz | hz
          · subst hz; omega
          · have := hl.1 z hz; omega
        rw [List.filter_cons]
        simp only [decide_eq_true_eq, hx, if_pos, hys, if_pos trivial]
        simp [hx]
      · rw [List.filter_cons]
        simp [hx]
    · simp only [goInsert, decide_eq_true_eq, h, if_neg, not_false_iff]
      rw [List.filter_cons, List.filter_cons, ih hl.2]
      by_cases hy : key y = p <;> simp [hy]

theorem goSortSlice_aux {α : Type} (key : α → Int) (l acc : List α)
    (hacc : acc.Pairwise (fun a b => key a ≤ key b)) :
    (l.foldl (fun ac x => goInsert (fun a b => key a < key b) x ac) acc).Pairwise
        (fun a b => key a ≤ key b) ∧
    ∀ p : Int,
      (l.foldl (fun ac x => goInsert (fun a b => key a < key b) x ac) acc).filter
          (fun z => key z = p) =
        acc.filter (fun z => key z = p) ++ l.filter (fun z => key z = p) := by
  induction l generalizing acc with
  | nil => simpa using hacc
  | cons x xs ih =>
    have hins := goInsert_sorted key x acc hacc
    obtain ⟨h1, h2⟩ := ih _ hins
    refine ⟨h1, fun p => ?_⟩
    rw [List.foldl_cons, h2 p, goInsert_filter key x acc p hacc, List.filter_cons]
    by_cases hx : key x = p <;> simp [hx]

theorem goSortSlice_sorted {α : Type} (key : α → Int) (l : List α) :
    (goSortSlice (fun a b => key a < key b) l).Pairwise (fun a b => key a ≤ key b) :=
  (goSortSlice_aux key l [] (by simp)).1

theorem goSortSlice_filter {α : Type} (key : α → Int) (l : List α) (p : Int) :
    (goSortSlice (fun a b => key a < key b) l).filter (fun z => key z = p) =
      l.filter (fun z => key z = p) := by
  have := (goSortSlice_aux key l [] (by simp)).2 p
  simpa [goSortSlice] using this

/-! ### Lifecycle helper lemmas -/

theorem sharesProxy_symm (assigns : Nat → List Nat) (c1 c2 : Nat) :
    sharesProxy assigns c1 c2 = sharesProxy assigns c2 c1 := by
  rw [Bool.eq_iff_iff]
  simp only [sharesProxy, List.any_eq_true, List.elem_iff]
  constructor
  · rintro ⟨p, h1, h2⟩
    exact ⟨p, h2, h1⟩
  · rintro ⟨p, h1, h2⟩
    exact ⟨p, h2, h1⟩

theorem nodupIds_unique {s : List CfgRow} (hnd : NodupIds s) {c d : CfgRow}
    (hc : c ∈ s) (hd : d ∈ s) (hid : c.id = d.id) : c = d := by
  induction s with
  | nil => cases hc
  | cons x xs ih =>
    rw [NodupIds, List.pairwise_cons] at hnd
    rcases List.mem_cons.mp hc with hc1 | hc1 <;> rcases List.mem_cons.mp hd with hd1 | hd1
    · rw [hc1, hd1]
    · rw [hc1] at hid
      exact absurd hid (hnd.1 d hd1)
    · rw [hd1] at hid
      exact absurd hid.symm (hnd.1 c hc1)
    · exact ih hnd.2 hc1 hd1

theorem deactivateEntry_pos (assigns : Nat → List Nat) (id : Nat) {d : CfgRow}
    (hg : d.status = .active ∧ d.id ≠ id ∧ sharesProxy assigns d.id id = true) :
    deactivateEntry assigns id d = { d with status := .approved } := by
  unfold deactivateEntry
  rw [if_pos hg]

theorem deactivateEntry_neg (assigns : Nat → List Nat) (id : Nat) {d : CfgRow}
    (hg : ¬ (d.status = .active ∧ d.id ≠ id ∧ sharesProxy assigns d.id id = true)) :
    deactivateEntry assigns id d = d := by
  unfold deactivateEntry
  rw [if_neg hg]

theorem repoApproveEntry_skip (uid id : Nat) (hash : String) {d : CfgRow}
    (hg : ¬ (d.id = id ∧ d.status = .pendingApproval)) :
    repoApproveEntry uid id hash d = d := by
  unfold repoApproveEntry
  rw [if_neg hg]

theorem approveEntry_id (assigns : Nat → List Nat) (uid id : Nat) (hash : String)
    (d : CfgRow) : (approveEntry assigns uid id hash d).id = d.id := by
  unfold approveEntry repoApproveEntry deactivateEntry
  split <;> split <;> rfl

/-- A row whose id is not the approved one and that ends up active was active
before, shares no proxy with the approved configuration, and is untouched. -/
theorem approveEntry_ne_active (assigns : Nat → List Nat) (uid id : Nat) (hash : String)
    {d : CfgRow} (hne : d.id ≠ id)
    (hA : (approveEntry assigns uid id hash d).status = .active) :
    approveEntry assigns uid id hash d = d ∧ d.status = .active ∧
      sharesProxy assigns d.id id = false := by
  by_cases hg : d.status = .active ∧ d.id ≠ id ∧ sharesProxy assigns d.id id = true
  · exfalso
    have heq : approveEntry assigns uid id hash d = { d with status := .approved } := by
      unfold approveEntry
      rw [deactivateEntry_pos assigns id hg]
      exact repoApproveEntry_skip uid id hash (fun hcon => hne hcon.1)
    rw [heq] at hA
    exact absurd hA (by simp)
  · have heq : approveEntry assigns uid id hash d = d := by
      unfold approveEntry
      rw [deactivateEntry_neg assigns id hg]
      exact repoApproveEntry_skip uid id hash (fun hcon => hne hcon.1)
    rw [heq] at hA
    refine ⟨heq, hA, ?_⟩
    by_contra hsh
    exact hg ⟨hA, hne, by simpa using hsh⟩

/-- A displaced row — active, distinct from the approved configuration, and
sharing a proxy with it — ends the approval as `approved`. -/
theorem approveEntry_displaced (assigns : Nat → List Nat) (uid id : Nat) (hash : String)
    {d : CfgRow} (hst : d.status = .active) (hne : d.id ≠ id)
    (hsh : sharesProxy assigns d.id id = true) :
    (approveEntry assigns uid id hash d).status = .approved := by
  unfold approveEntry
  rw [deactivateEntry_pos assigns id ⟨hst, hne, hsh⟩]
  have hskip : repoApproveEntry uid id hash { d with status := ConfigStatus.approved } =
      { d with status := ConfigStatus.approved } :=
    repoApproveEntry_skip uid id hash (fun hcon => hne hcon.1)
  rw [hskip]

theorem approveStep_shape (assigns : Nat → List Nat) (id uid : Nat) (hash : String)
    (s : List CfgRow) {c : CfgRow} (hfind : s.find? (fun c0 => c0.id = id) = some c)
    (hst : c.status = .pendingApproval) (hsub : c.submittedBy = some uid) :
    approveStep assigns id uid hash s = s.map (approveEntry assigns uid id hash) := by
  unfold approveStep approveSvc
  rw [hfind]
  dsimp only
  rw [if_neg (by simp [hst]), if_neg (by simp [hsub]), List.map_map]
  rfl

theorem onePerProxy_map (assigns : Nat → List Nat) (uid id : Nat) (hash : String)
    {s : List CfgRow} (hnd : NodupIds s) (hop : OnePerProxy assigns s) :
    OnePerProxy assigns (s.map (approveEntry assigns uid id hash)) := by
  rw [OnePerProxy, List.pairwise_map]
  have hcomb := List.Pairwise.and hop hnd
  refine hcomb.imp ?_
  intro a b hab hA hB
  rw [approveEntry_id assigns uid id hash a, approveEntry_id assigns uid id hash b]
  by_cases ha : a.id = id
  · by_cases hb : b.id = id
    · exact absurd (ha.trans hb.symm) hab.2
    · obtain ⟨-, -, hsh⟩ := approveEntry_ne_active assigns uid id hash hb hB
      rw [ha, sharesProxy_symm]
      exact hsh
  · obtain ⟨-, ha', hsh⟩ := approveEntry_ne_active assigns uid id hash ha hA
    by_cases hb : b.id = id
    · rw [hb]
      exact hsh
    · obtain ⟨-, hb', -⟩ := approveEntry_ne_active assigns uid id hash hb hB
      exact hab.1 ha' hb'

theorem nodupIds_map (assigns : Nat → List Nat) (uid id : Nat) (hash : String)
    {s : List CfgRow} (hnd : NodupIds s) :
    NodupIds (s.map (approveEntry assigns uid id hash)) := by
  rw [NodupIds, List.pairwise_map]
  refine hnd.imp ?_
  intro a b hab
  rw [approveEntry_id, approveEntry_id]
  exact hab

theorem approveStep_preserves (assigns : Nat → List Nat) (id uid : Nat) (hash : String)
    {s : List CfgRow} (hnd : NodupIds s) (hop : OnePerProxy assigns s) :
    NodupIds (approveStep assigns id uid hash s) ∧
      OnePerProxy assigns (approveStep assigns id uid hash s) := by
  unfold approveStep approveSvc
  cases hfind : s.find? (fun c0 => c0.id = id) with
  | none => exact ⟨hnd, hop⟩
  | some c =>
    dsimp only
    by_cases h1 : c.status = .pendingApproval
    · by_cases h2 : c.submittedBy = some uid
      · rw [if_neg (by simp [h1]), if_neg (by simp [h2])]
        dsimp only
        rw [List.map_map]
        exact ⟨nodupIds_map assigns uid id hash hnd, onePerProxy_map assigns uid id hash hnd hop⟩
      · rw [if_neg (by simp [h1]), if_pos (by simp [h2])]
        exact ⟨hnd, hop⟩
    · rw [if_pos (by simp [h1])]
      exact ⟨hnd, hop⟩

theorem runApprovals_preserves (assigns : Nat → List Nat) (ops : List (Nat × Nat × String))
    {s : List CfgRow} (hnd : NodupIds s) (hop : OnePerProxy assigns s) :
    NodupIds (runApprovals assigns ops s) ∧ OnePerProxy assigns (runApprovals assigns ops s) := by
  induction ops generalizing s with
  | nil => exact ⟨hnd, hop⟩
  | cons op ops ih =>
    obtain ⟨h1, h2⟩ := approveStep_preserves assigns op.1 op.2.1 op.2.2 hnd hop
    exact ih h1 h2

/-- The row the service activates: `pending_approval` becomes `active` with
`approved_by` set to the caller. -/
theorem approveEntry_activates (assigns : Nat → List Nat) (uid id : Nat) (hash : String)
    {c : CfgRow} (hid : c.id = id) (hst : c.status = .pendingApproval) :
    approveEntry assigns uid id hash c =
      { c with status := .active, approvedBy := some uid, configHash := some hash } := by
  unfold approveEntry
  rw [deactivateEntry_neg assigns id (by simp [hst])]
  unfold repoApproveEntry
  rw [if_pos ⟨hid, hst⟩]

theorem approveStep_nodup (assigns : Nat → List Nat) (id uid : Nat) (hash : String)
    {s : List CfgRow} (hnd : NodupIds s) :
    NodupIds (approveStep assigns id uid hash s) := by
  unfold approveStep approveSvc
  cases hfind : s.find? (fun c0 => c0.id = id) with
  | none => exact hnd
  | some c =>
    dsimp only
    by_cases h1 : c.status = .pendingApproval
    · by_cases h2 : c.submittedBy = some uid
      · rw [if_neg (by simp [h1]), if_neg (by simp [h2])]
        dsimp only
        rw [List.map_map]
        exact nodupIds_map assigns uid id hash hnd
      · rw [if_neg (by simp [h1]), if_pos (by simp [h2])]
        exact hnd
    · rw [if_pos (by simp [h1])]
      exact hnd

theorem approveStep_goodApproved (assigns : Nat → List Nat) (id uid : Nat) (hash : String)
    {s : List CfgRow} (hnd : NodupIds s) (hgood : ApprovedBySubmitter s) :
    ApprovedBySubmitter (approveStep assigns id uid hash s) := by
  unfold approveStep approveSvc
  cases hfind : s.find? (fun c0 => c0.id = id) with
  | none => exact hgood
  | some c =>
    dsimp only
    by_cases h1 : c.status = .pendingApproval
    · by_cases h2 : c.submittedBy = some uid
      · rw [if_neg (by simp [h1]), if_neg (by simp [h2])]
        dsimp only
        rw [List.map_map]
        have hcs : c ∈ s := List.mem_of_find?_eq_some hfind
        have hcid : c.id = id := of_decide_eq_true (List.find?_eq_some.mp hfind).1
        intro x hx hxact
        obtain ⟨d, hd, hxd⟩ := List.mem_map.mp hx
        have hxd' : approveEntry assigns uid id hash d = x := hxd
        by_cases hdid : d.id = id
        · have hdc : d = c := nodupIds_unique hnd hd hcs (by rw [hdid, hcid])
          rw [hdc] at hxd'
          rw [approveEntry_activates assigns uid id hash hcid h1] at hxd'
          rw [← hxd']
          dsimp only
          exact h2.symm
        · rw [← hxd'] at hxact
          obtain ⟨heq, hdact, -⟩ := approveEntry_ne_active assigns uid id hash hdid hxact
          rw [← hxd', heq]
          exact hgood d hd hdact
      · rw [if_neg (by simp [h1]), if_pos (by simp [h2])]
        exact hgood
    · rw [if_pos (by simp [h1])]
      exact hgood

theorem runApprovals_goodApproved (assigns : Nat → List Nat) (ops : List (Nat × Nat × String))
    {s : List CfgRow} (hnd : NodupIds s) (hgood : ApprovedBySubmitter s) :
    ApprovedBySubmitter (runApprovals assigns ops s) := by
  induction ops generalizing s with
  | nil => exact hgood
  | cons op ops ih =>
    exact ih (approveStep_nodup assigns op.1 op.2.1 op.2.2 hnd)
      (approveStep_goodApproved assigns op.1 op.2.1 op.2.2 hnd hgood)

/-! ### UTF-8 encoding: homomorphism and injectivity -/

theorem char_eq_of_toNat_eq {a b : Char} (h : a.toNat = b.toNat) : a = b :=
  Char.ext (UInt32.ext h)

theorem utf8Bytes_ne_nil (c : Char) : utf8Bytes c ≠ [] := by
  unfold utf8Bytes
  dsimp only
  split_ifs <;> simp

theorem utf8_prefix_free {c1 c2 : Char} {r1 r2 : List Nat}
    (h : utf8Bytes c1 ++ r1 = utf8Bytes c2 ++ r2) : c1 = c2 ∧ r1 = r2 := by
  have hval : c1.toNat = c2.toNat → c1 = c2 := char_eq_of_toNat_eq
  unfold utf8Bytes at h
  dsimp only at h
  split_ifs at h <;>
    simp only [List.cons_append, List.nil_append, List.cons.injEq] at h <;>
    (try omega) <;>
    refine ⟨hval (by omega), ?_⟩ <;> tauto

theorem strBytes_append (a b : String) : strBytes (a ++ b) = strBytes a ++ strBytes b := by
  unfold strBytes
  rw [String.data_append, List.flatMap_append]

theorem utf8List_injective : ∀ l1 l2 : List Char,
    l1.flatMap utf8Bytes = l2.flatMap utf8Bytes → l1 = l2 := by
  intro l1
  induction l1 with
  | nil =>
    intro l2 h
    cases l2 with
    | nil => rfl
    | cons c cs =>
      exfalso
      rw [List.flatMap_nil, List.flatMap_cons] at h
      rcases List.append_eq_nil.mp h.symm with ⟨h1, -⟩
      exact utf8Bytes_ne_nil c h1
  | cons c cs ih =>
    intro l2 h
    cases l2 with
    | nil =>
      exfalso
      rw [List.flatMap_nil, List.flatMap_cons] at h
      rcases List.append_eq_nil.mp h with ⟨h1, -⟩
      exact utf8Bytes_ne_nil c h1
    | cons d ds =>
      rw [List.flatMap_cons, List.flatMap_cons] at h
      obtain ⟨hcd, htail⟩ := utf8_prefix_free h
      rw [hcd, ih ds htail]

theorem strBytes_injective {a b : String} (h : strBytes a = strBytes b) : a = b := by
  apply String.ext
  exact utf8List_injective a.data b.data h

/-! ### Hex encoding and SHA-256 output shape -/

theorem hexEncode_length (bs : List Nat) : (hexEncode bs).length = 2 * bs.length := by
  show (bs.flatMap fun b => [hexDigit (b / 16), hexDigit (b % 16)]).length = 2 * bs.length
  induction bs with
  | nil => rfl
  | cons b bs ih =>
    rw [List.flatMap_cons, List.length_append, ih, List.length_cons]
    simp
    omega

theorem hexDigit_mem_table : ∀ n < 16, hexDigit n ∈ "0123456789abcdef".data := by
  decide

theorem hexEncode_chars (bs : List Nat) (hb : ∀ b ∈ bs, b < 256) :
    ∀ ch ∈ (hexEncode bs).data, ch ∈ "0123456789abcdef".data := by
  show ∀ ch ∈ bs.flatMap fun b => [hexDigit (b / 16), hexDigit (b % 16)], _
  intro ch hch
  obtain ⟨b, hbmem, hch⟩ := List.mem_flatMap.mp hch
  have hblt := hb b hbmem
  rcases List.mem_cons.mp hch with hch | hch
  · rw [hch]
    exact hexDigit_mem_table (b / 16) (by omega)
  · rcases List.mem_cons.mp hch with hch | hch
    · rw [hch]
      exact hexDigit_mem_table (b % 16) (by omega)
    · cases hch

theorem wordBytes_lt (w : Nat) : ∀ x ∈ wordBytes w, x < 256 := by
  intro x hx
  simp only [wordBytes, List.mem_cons, List.not_mem_nil, or_false] at hx
  rcases hx with h | h | h | h <;> omega

theorem wordBytes_length (w : Nat) : (wordBytes w).length = 4 := rfl

theorem sha256Bytes_lt (msg : List Nat) : ∀ x ∈ sha256Bytes msg, x < 256 := by
  intro x hx
  unfold sha256Bytes at hx
  simp only [List.mem_append] at hx
  rcases hx with ((((((h | h) | h) | h) | h) | h) | h) | h <;> exact wordBytes_lt _ x h

theorem sha256Bytes_length (msg : List Nat) : (sha256Bytes msg).length = 32 := by
  unfold sha256Bytes
  simp [wordBytes_length]

theorem sha256Hex_length (msg : List Nat) : (sha256Hex msg).length = 64 := by
  unfold sha256Hex
  rw [hexEncode_length, sha256Bytes_length]

theorem sha256Hex_lower_hex (msg : List Nat) :
    ∀ ch ∈ (sha256Hex msg).data, ch ∈ "0123456789abcdef".data :=
  hexEncode_chars (sha256Bytes msg) (sha256Bytes_lt msg)

/-- FIPS 180-4 test vector, checking the SHA-256 embedding itself. -/
theorem sha256Hex_abc_vector :
    sha256Hex (strBytes "abc") =
      "ba7816bf8f01cfea414140de5dae2223b00361a396177a9cb410ff61f20015ad" := by
  decide

/-- **C5**: the persisted fingerprint is the lowercase hex encoding of
SHA-256 over the byte concatenation `parent.config || sni.yaml ||
ip_allow.yaml`, in that order (the code streams the three artifacts into one
hash state; the spec hashes their concatenation — these agree), the output is
a 64-character lowercase-hex string, and changing any single artifact changes
the fingerprint unless a SHA-256 collision occurs. -/
theorem fingerprint_is_sha256_of_artifacts :
    (∀ p s i, generateConfigHash p s i = specFingerprint p s i) ∧
    (∀ p s i, (generateConfigHash p s i).length = 64 ∧
       ∀ ch ∈ (generateConfigHash p s i).data, ch ∈ "0123456789abcdef".data) ∧
    (∀ p p' s i, p ≠ p' →
       generateConfigHash p s i ≠ generateConfigHash p' s i ∨ FingerprintCollision) ∧
    (∀ p s s' i, s ≠ s' →
       generateConfigHash p s i ≠ generateConfigHash p s' i ∨ FingerprintCollision) ∧
    (∀ p s i i', i ≠ i' →
       generateConfigHash p s i ≠ generateConfigHash p s i' ∨ FingerprintCollision) := by
  refine ⟨?_, ?_, ?_, ?_, ?_⟩
  · intro p s i
    unfold generateConfigHash specFingerprint
    rw [strBytes_append, strBytes_append, List.append_assoc]
  · intro p s i
    exact ⟨sha256Hex_length _, sha256Hex_lower_hex _⟩
  · intro p p' s i hne
    by_cases heq : generateConfigHash p s i = generateConfigHash p' s i
    · refine Or.inr ⟨strBytes p ++ strBytes s ++ strBytes i,
        strBytes p' ++ strBytes s ++ strBytes i, ?_, heq⟩
      intro hXY
      exact hne (strBytes_injective
        (List.append_cancel_right (List.append_cancel_right hXY)))
    · exact Or.inl heq
  · intro p s s' i hne
    by_cases heq : generateConfigHash p s i = generateConfigHash p s' i
    · refine Or.inr ⟨strBytes p ++ strBytes s ++ strBytes i,
        strBytes p ++ strBytes s' ++ strBytes i, ?_, heq⟩
      intro hXY
      exact hne (strBytes_injective
        (List.append_cancel_left (List.append_cancel_right hXY)))
    · exact Or.inl heq
  · intro p s i i' hne
    by_cases heq : generateConfigHash p s i = generateConfigHash p s i'
    · refine Or.inr ⟨strBytes p ++ strBytes s ++ strBytes i,
        strBytes p ++ strBytes s ++ strBytes i', ?_, heq⟩
      intro hXY
      exact hne (strBytes_injective (List.append_cancel_left hXY))
    · exact Or.inl heq

/-- Witness for `fingerprint_is_sha256_of_artifacts` at concrete artifacts. -/
theorem fingerprint_is_sha256_of_artifacts_w :
    generateConfigHash "a" "s" "i" ≠ generateConfigHash "b" "s" "i" ∨ FingerprintCollision :=
  fingerprint_is_sha256_of_artifacts.2.2.1 "a" "b" "s" "i" (by decide)

/-! ### CIDR expansion lemmas -/

theorem parseV4Field_le {cs : List Char} {v : Nat} (h : parseV4Field cs = some v) : v ≤ 255 := by
  unfold parseV4Field at h
  cases hm : cs.mapM digitVal with
  | none => rw [hm] at h; cases h
  | some ds =>
    rw [hm] at h
    dsimp only at h
    split_ifs at h with h1 h2 h3 h4
    injection h with h
    omega

theorem parseIPv4_bounds {cs : List Char} {ip : IPv4} (h : parseIPv4 cs = some ip) :
    ip.a ≤ 255 ∧ ip.b ≤ 255 ∧ ip.c ≤ 255 ∧ ip.d ≤ 255 := by
  unfold parseIPv4 at h
  split at h
  · split at h
    · injection h with h
      rename_i ha hb hc hd
      rw [← h]
      exact ⟨parseV4Field_le ha, parseV4Field_le hb, parseV4Field_le hc, parseV4Field_le hd⟩
    · cases h
  · cases h

theorem goParseCIDRv4_bounds {s : String} {ip : IPv4} {n : Nat}
    (h : goParseCIDRv4 s = some (ip, n)) :
    ip.a ≤ 255 ∧ ip.b ≤ 255 ∧ ip.c ≤ 255 ∧ ip.d ≤ 255 ∧ n ≤ 32 := by
  unfold goParseCIDRv4 at h
  split at h
  · cases h
  · rename_i addr sep maskCs heq
    split at h
    · rename_i ip0 ds hip hds
      split_ifs at h with h1
      dsimp only at h
      split_ifs at h with h2
      injection h with h
      injection h with hip' hn'
      rw [← hip', ← hn']
      obtain ⟨ha, hb, hc, hd⟩ := parseIPv4_bounds hip
      exact ⟨ha, hb, hc, hd, h2⟩
    · cases h

theorem cidrToRange_no_slash (s : String) (h : '/' ∉ s.data) : cidrToRange s = s := by
  have hdrop : s.data.dropWhile (fun c => c ≠ '/') = [] := by
    rw [List.dropWhile_eq_nil_iff]
    intro x hx
    simp only [ne_eq, decide_not, Bool.not_eq_true', decide_eq_false_iff_not]
    intro hcon
    rw [hcon] at hx
    exact h hx
  unfold cidrToRange goParseCIDRv4
  rw [List.span_eq_take_drop, hdrop]

set_option maxHeartbeats 3200000 in
/-- Bytewise masking in `cidrToRange` agrees with arithmetic on the 32-bit
address value: the range start is the network address `v - v % 2^(32-n)` and
the range end is `start + 2^(32-n) - 1`. -/
theorem rangeStart_rangeEnd_spec (ip : IPv4) (n : Nat)
    (ha : ip.a ≤ 255) (hb : ip.b ≤ 255) (hc : ip.c ≤ 255) (hd : ip.d ≤ 255) (hn : n ≤ 32) :
    ipv4Nat (rangeStart ip n) = ipv4Nat ip - ipv4Nat ip % 2 ^ (32 - n) ∧
    ipv4Nat (rangeEnd ip n) = ipv4Nat ip - ipv4Nat ip % 2 ^ (32 - n) + (2 ^ (32 - n) - 1) := by
  obtain ⟨a, b, c, d⟩ := ip
  simp only [ipv4Nat, rangeStart, rangeEnd] at *
  unfold orInvMaskByte maskByte maskBitsAt
  interval_cases n <;> (norm_num; omega)

/-! ### Claim theorems -/

/-- **C1**: after any finite sequence of approve operations, at most one
configuration assigned to a proxy is `active`; and a successful approval maps
every other active configuration sharing an assigned proxy to `approved`
(via `DeactivateOthers`) before the approved one becomes `active`. -/
theorem approvals_single_active_per_proxy
    (assigns : Nat → List Nat) (ops : List (Nat × Nat × String)) (s : List CfgRow)
    (hnd : NodupIds s) (hop : OnePerProxy assigns s) :
    OnePerProxy assigns (runApprovals assigns ops s) ∧
    (∀ (id uid : Nat) (hash : String) (c : CfgRow) (st : List CfgRow),
       st.find? (fun c0 => c0.id = id) = some c →
       c.status = .pendingApproval → c.submittedBy = some uid →
       approveStep assigns id uid hash st = st.map (approveEntry assigns uid id hash) ∧
       ∀ d ∈ st, d.status = .active → d.id ≠ id → sharesProxy assigns d.id id = true →
         (approveEntry assigns uid id hash d).status = .approved) := by
  refine ⟨(runApprovals_preserves assigns ops hnd hop).2, ?_⟩
  intro id uid hash c st hfind h1 h2
  exact ⟨approveStep_shape assigns id uid hash st hfind h1 h2,
    fun d _ hst hne hsh => approveEntry_displaced assigns uid id hash hst hne hsh⟩

/-- Witness for `approvals_single_active_per_proxy`: approving a pending
configuration displaces the active one sharing proxy 7. -/
theorem approvals_single_active_per_proxy_w :
    OnePerProxy (fun i => if i ≤ 2 then [7] else [])
      (runApprovals (fun i => if i ≤ 2 then [7] else []) [(1, 5, "x")]
        [⟨1, .pendingApproval, some 5, none, none⟩, ⟨2, .active, some 5, some 5, some "h"⟩]) :=
  (approvals_single_active_per_proxy (fun i => if i ≤ 2 then [7] else []) [(1, 5, "x")]
    [⟨1, .pendingApproval, some 5, none, none⟩, ⟨2, .active, some 5, some 5, some "h"⟩]
    (by unfold NodupIds; decide) (by unfold OnePerProxy; decide)).1

/-- **C2**: for a poll from a hostname with an assigned active configuration,
`unchanged = true` exactly when the stored fingerprint is non-empty and equals
the presented one; otherwise the response carries `unchanged = false`, the
fingerprint and the three compiled artifacts, and an empty stored fingerprint
is computed and persisted onto the configuration; every poll sets the proxy's
`last_seen` to now. -/
theorem getConfig_poll_contract (p : ProxyRow) (cfg : ActiveConfig) (cur : String) (now : Int) :
    ((getConfig p (some cfg) cur now).resp.unchanged = true ↔
      (cfg.configHash.getD "" ≠ "" ∧ cfg.configHash.getD "" = cur)) ∧
    (¬ (cfg.configHash.getD "" ≠ "" ∧ cfg.configHash.getD "" = cur) →
      (getConfig p (some cfg) cur now).resp.unchanged = false ∧
      (getConfig p (some cfg) cur now).resp.config =
        some ⟨generateParentConfig cfg.ipRanges cfg.domains cfg.parents cfg.defaultAction,
              generateSNIYaml cfg.domains, generateIPAllowYaml cfg.clientACL⟩ ∧
      (cfg.configHash.getD "" = "" →
        (getConfig p (some cfg) cur now).resp.hash = generateConfigHashOf cfg ∧
        (getConfig p (some cfg) cur now).cfg =
          some { cfg with configHash := some (generateConfigHashOf cfg) }) ∧
      (cfg.configHash.getD "" ≠ "" →
        (getConfig p (some cfg) cur now).resp.hash = cfg.configHash.getD "" ∧
        (getConfig p (some cfg) cur now).cfg = some cfg)) ∧
    (getConfig p (some cfg) cur now).proxy.lastSeen = some now := by
  unfold getConfig
  dsimp only
  by_cases hcond : cfg.configHash.getD "" ≠ "" ∧ cfg.configHash.getD "" = cur
  · rw [if_pos hcond]
    exact ⟨⟨fun _ => hcond, fun _ => rfl⟩, fun hcon => absurd hcond hcon, rfl⟩
  · rw [if_neg hcond]
    unfold generateConfigFilesOf generateConfigHashOf
    dsimp only
    by_cases hstored : cfg.configHash.getD "" = ""
    · rw [if_pos hstored, if_pos hstored]
      exact ⟨iff_of_false (by simp) hcond,
        fun _ => ⟨rfl, rfl, fun _ => ⟨rfl, rfl⟩, fun hne => absurd hstored hne⟩, rfl⟩
    · rw [if_neg hstored, if_neg hstored]
      exact ⟨iff_of_false (by simp) hcond,
        fun _ => ⟨rfl, rfl, fun heq => absurd heq hstored, fun _ => ⟨rfl, rfl⟩⟩, rfl⟩

/-- Witness for `getConfig_poll_contract`: matching fingerprints poll as
unchanged. -/
theorem getConfig_poll_contract_w :
    (getConfig ⟨"id1", "host1", true, none, none, none, none⟩
        (some ⟨some "h", .direct, [], [], [], []⟩) "h" 5).resp.unchanged = true :=
  (getConfig_poll_contract ⟨"id1", "host1", true, none, none, none, none⟩
    ⟨some "h", .direct, [], [], [], []⟩ "h" 5).1.mpr (by decide)

/-- **C3**: a second registration against an existing hostname record
succeeds — returning that record's proxy id without creating a new row —
exactly when the record is offline, or the caller presents the record's id,
or the caller's source IP equals the record's registered IP; otherwise it is
a conflict.  A caller presenting its prior proxy id never gets a conflict. -/
theorem register_identity_rule (ex : ProxyRow) (req : RegisterRequest) (newID : String)
    (now : Int) (hhost : req.hostname ≠ "") (hid : ex.id ≠ "") :
    ((register (some ex) req newID now).1 = .registered ex.id false ↔
      (¬ ex.isOnline = true ∨ (req.proxyID ≠ "" ∧ req.proxyID = ex.id) ∨
        ex.registeredIP = some req.remoteIP)) ∧
    (¬ (¬ ex.isOnline = true ∨ (req.proxyID ≠ "" ∧ req.proxyID = ex.id) ∨
        ex.registeredIP = some req.remoteIP) →
      (register (some ex) req newID now).1 = .conflict) ∧
    (req.proxyID = ex.id → (register (some ex) req newID now).1 ≠ .conflict) := by
  unfold register
  rw [if_neg hhost]
  dsimp only
  have hip : (match ex.registeredIP with
      | some ip => decide (ip = req.remoteIP)
      | none => false) = true ↔ ex.registeredIP = some req.remoteIP := by
    cases ex.registeredIP <;> simp
  by_cases honline : ex.isOnline = true
  · by_cases hsip : ex.registeredIP = some req.remoteIP
    · rw [if_neg]
      · simp [honline, hsip]
      · intro hcon
        exact absurd (hip.mpr hsip) (by simpa using hcon.2.1)
    · by_cases hsid : req.proxyID ≠ "" ∧ req.proxyID = ex.id
      · rw [if_neg]
        · simp [honline, hsid, hid]
        · intro hcon
          have := hcon.2.2
          simp only [Bool.not_eq_true, decide_eq_false_iff_not] at this
          exact this ⟨hsid.1, hsid.2⟩
      · rw [if_pos]
        · refine ⟨by simp [honline, hsip, hsid], fun _ => rfl, fun hpid => ?_⟩
          exfalso
          apply hsid
          refine ⟨?_, hpid⟩
          rw [hpid]
          exact hid
        · refine ⟨honline, ?_, ?_⟩
          · simp only [Bool.not_eq_true]
            rw [← Bool.not_eq_true]
            intro hcon
            exact hsip (hip.mp hcon)
          · simp only [Bool.not_eq_true, decide_eq_false_iff_not]
            exact hsid
  · rw [if_neg (fun hcon => honline hcon.1)]
    simp [honline]

/-- Witness for `register_identity_rule`: a sidecar re-registering with its
prior proxy id while online does not conflict. -/
theorem register_identity_rule_w :
    (register (some ⟨"id1", "proxy-x", true, none, none, some "10.1.1.1", none⟩)
        ⟨"proxy-x", "id1", "10.9.9.9"⟩ "newid" 5).1 ≠ .conflict :=
  (register_identity_rule ⟨"id1", "proxy-x", true, none, none, some "10.1.1.1", none⟩
    ⟨"proxy-x", "id1", "10.9.9.9"⟩ "newid" 5 (by decide) (by decide)).2.2 (by decide)

/-- **C4**: approving a pending configuration as a different user than the
submitter fails with `forbidden` and leaves the table unchanged (the row stays
`pending_approval`); consequently, after any sequence of approvals every
active configuration has `approved_by = submitted_by`. -/
theorem approve_same_user_rule (assigns : Nat → List Nat) (s : List CfgRow)
    (hnd : NodupIds s) (hgood : ApprovedBySubmitter s) :
    (∀ (id uid : Nat) (hash : String) (c : CfgRow),
       s.find? (fun c0 => c0.id = id) = some c →
       c.status = .pendingApproval → c.submittedBy ≠ some uid →
       approveSvc assigns id uid hash s = .error .forbidden ∧
       approveStep assigns id uid hash s = s) ∧
    (∀ ops : List (Nat × Nat × String), ApprovedBySubmitter (runApprovals assigns ops s)) := by
  constructor
  · intro id uid hash c hfind h1 h2
    constructor
    · unfold approveSvc
      rw [hfind]
      dsimp only
      rw [if_neg (by simp [h1]), if_pos (by simp [h2])]
    · unfold approveStep approveSvc
      rw [hfind]
      dsimp only
      rw [if_neg (by simp [h1]), if_pos (by simp [h2])]
  · intro ops
    exact runApprovals_goodApproved assigns ops hnd hgood

/-- Witness for `approve_same_user_rule`: user 6 cannot approve what user 5
submitted. -/
theorem approve_same_user_rule_w :
    approveSvc (fun _ => [7]) 1 6 "x" [⟨1, .pendingApproval, some 5, none, none⟩] =
      .error .forbidden :=
  ((approve_same_user_rule (fun _ => [7]) [⟨1, .pendingApproval, some 5, none, none⟩]
      (by unfold NodupIds; decide) (by unfold ApprovedBySubmitter; decide)).1
    1 6 "x" ⟨1, .pendingApproval, some 5, none, none⟩ (by decide) (by decide) (by decide)).1

/-- **C6 counterexample**: a bare IPv4 selector is *not* rendered as the
degenerate range `a.b.c.d-a.b.c.d`; `cidrToRange` returns it verbatim because
`net.ParseCIDR` fails without a `/`. -/
theorem cidrToRange_bare_ip_counterexample :
    cidrToRange "1.2.3.4" = "1.2.3.4" ∧ cidrToRange "1.2.3.4" ≠ "1.2.3.4-1.2.3.4" := by
  constructor <;> decide

/-- **C6 (amended)**: selectors without a `/` — in particular bare IPv4
addresses — are rendered verbatim; an IPv4 CIDR selector is rendered as the
dash-separated start-end range of its network, whose endpoints are the
network address and broadcast address of the block. -/
theorem cidrToRange_contract :
    (∀ s : String, '/' ∉ s.data → cidrToRange s = s) ∧
    (∀ (s : String) (ip : IPv4) (n : Nat), goParseCIDRv4 s = some (ip, n) →
      cidrToRange s = ipv4String (rangeStart ip n) ++ "-" ++ ipv4String (rangeEnd ip n) ∧
      ipv4Nat (rangeStart ip n) = ipv4Nat ip - ipv4Nat ip % 2 ^ (32 - n) ∧
      ipv4Nat (rangeEnd ip n) =
        ipv4Nat ip - ipv4Nat ip % 2 ^ (32 - n) + (2 ^ (32 - n) - 1)) ∧
    cidrToRange "10.0.0.0/8" = "10.0.0.0-10.255.255.255" := by
  refine ⟨cidrToRange_no_slash, ?_, by decide⟩
  intro s ip n hparse
  obtain ⟨ha, hb, hc, hd, hn⟩ := goParseCIDRv4_bounds hparse
  obtain ⟨h1, h2⟩ := rangeStart_rangeEnd_spec ip n ha hb hc hd hn
  refine ⟨?_, h1, h2⟩
  unfold cidrToRange
  rw [hparse]

/-- Witness for `cidrToRange_contract`: slash-free input and a parsed CIDR. -/
theorem cidrToRange_contract_w :
    cidrToRange "192.168.7.9" = "192.168.7.9" ∧
    cidrToRange "192.168.1.130/25" =
      ipv4String (rangeStart ⟨192, 168, 1, 130⟩ 25) ++ "-" ++
        ipv4String (rangeEnd ⟨192, 168, 1, 130⟩ 25) :=
  ⟨cidrToRange_contract.1 "192.168.7.9" (by decide),
   (cidrToRange_contract.2.1 "192.168.1.130/25" ⟨192, 168, 1, 130⟩ 25 (by decide)).1⟩

set_option maxRecDepth 4000 in
/-- **C7 counterexample**: two equal-priority domain rules reach the compiler
in the order the repository returns them (`ORDER BY priority` only); the
emitted lines keep that order and are *not* tie-broken by selector
lexicographic order: `bbb.example.com` is emitted before `aaa.example.com`. -/
theorem equal_priority_not_lex_counterexample :
    generateParentConfig [] [⟨"bbb.example.com", .direct, 5⟩, ⟨"aaa.example.com", .direct, 5⟩]
        [] .direct =
      parentConfigPreamble ++
        "dest_domain=bbb.example.com go_direct=true\ndest_domain=aaa.example.com go_direct=true\ndest_domain=. go_direct=true\n" ∧
    generateParentConfig [] [⟨"bbb.example.com", .direct, 5⟩, ⟨"aaa.example.com", .direct, 5⟩]
        [] .direct ≠
      parentConfigPreamble ++
        "dest_domain=aaa.example.com go_direct=true\ndest_domain=bbb.example.com go_direct=true\ndest_domain=. go_direct=true\n" := by
  constructor <;> decide

/-- **C7 (amended)**: the emitted IP-range and domain lines appear sorted by
priority ascending; rules with equal priority keep the relative order in
which they reach the compiler (repository order), not selector lexicographic
order.  `generateParentConfig` emits exactly the `goSortSlice`d lists, whose
priorities are pairwise non-decreasing and whose equal-priority fibres equal
those of the input list. -/
theorem parent_config_priority_order :
    (∀ (ipRanges : List IPRangeRule) (domainRules : List DomainRule)
       (parentProxies : List ParentProxy) (defaultAction : RuleAction),
      generateParentConfig ipRanges domainRules parentProxies defaultAction =
        parentConfigPreamble ++
          String.join ((sortIPRangeRules ipRanges).map
            (ipRangeLine (parentListString parentProxies))) ++
          String.join ((sortDomainRules domainRules).map
            (domainLine (parentListString parentProxies))) ++
          defaultRuleLine (parentListString parentProxies) defaultAction) ∧
    (∀ l : List IPRangeRule,
      (sortIPRangeRules l).Pairwise (fun r1 r2 => r1.priority ≤ r2.priority)) ∧
    (∀ l : List DomainRule,
      (sortDomainRules l).Pairwise (fun r1 r2 => r1.priority ≤ r2.priority)) ∧
    (∀ (l : List IPRangeRule) (p : Int),
      (sortIPRangeRules l).filter (fun r => r.priority = p) =
        l.filter (fun r => r.priority = p)) ∧
    (∀ (l : List DomainRule) (p : Int),
      (sortDomainRules l).filter (fun r => r.priority = p) =
        l.filter (fun r => r.priority = p)) := by
  refine ⟨fun _ _ _ _ => rfl, ?_, ?_, ?_, ?_⟩
  · intro l
    exact goSortSlice_sorted (fun r => r.priority) l
  · intro l
    exact goSortSlice_sorted (fun r => r.priority) l
  · intro l p
    exact goSortSlice_filter (fun r => r.priority) l p
  · intro l p
    exact goSortSlice_filter (fun r => r.priority) l p

/-- Witness for `parent_config_priority_order` at a concrete rule list. -/
theorem parent_config_priority_order_w :
    (sortDomainRules [⟨"b.example.com", .direct, 9⟩, ⟨"a.example.com", .direct, 3⟩]).Pairwise
      (fun r1 r2 => r1.priority ≤ r2.priority) :=
  parent_config_priority_order.2.2.1 [⟨"b.example.com", .direct, 9⟩, ⟨"a.example.com", .direct, 3⟩]

/-- **C8**: an acknowledgement from a known hostname with status `"ok"` sets
the proxy's observed fingerprint to the presented hash; any other status
leaves the row exactly as it was. -/
theorem ack_fingerprint_rule (p : ProxyRow) (hash status : String) (now : Int) :
    (status = "ok" → (ack p hash status now).currentConfigHash = some hash) ∧
    (status ≠ "ok" → ack p hash status now = p) := by
  constructor
  · intro h
    unfold ack
    rw [if_pos h]
  · intro h
    unfold ack
    rw [if_neg h]

/-- Witness for `ack_fingerprint_rule` on both statuses. -/
theorem ack_fingerprint_rule_w :
    (ack ⟨"id1", "h", true, none, some "old", none, none⟩ "new" "ok" 5).currentConfigHash =
        some "new" ∧
    ack ⟨"id1", "h", true, none, some "old", none, none⟩ "new" "error" 5 =
      ⟨"id1", "h", true, none, some "old", none, none⟩ :=
  ⟨(ack_fingerprint_rule ⟨"id1", "h", true, none, some "old", none, none⟩ "new" "ok" 5).1 rfl,
   (ack_fingerprint_rule ⟨"id1", "h", true, none, some "old", none, none⟩ "new" "error" 5).2
     (by decide)⟩

/-- **C9 counterexample**: the parent-proxy address check is `net.ParseIP`,
which accepts IPv6; `::1` is not an IPv4 literal yet passes validation. -/
theorem parent_proxy_ipv6_counterexample :
    validParentProxy ⟨"::1", 3128⟩ = true ∧ isIPv4Literal "::1" = false := by
  constructor <;> decide

/-- **C9 (amended)**: a parent-proxy entry passes validation iff its address
is a non-empty `net.ParseIP`-valid IP literal (IPv4 *or* IPv6) and its port
lies in `[1024, 65535]`; ports 1023 and 65536 are rejected while 1024 and
65535 are accepted, and a non-IP address is rejected. -/
theorem parent_proxy_validation_contract :
    (∀ pp : ParentProxyInput, validParentProxy pp = true ↔
      (pp.address ≠ "" ∧ goParseIP pp.address = true ∧ 1024 ≤ pp.port ∧ pp.port ≤ 65535)) ∧
    validParentProxy ⟨"10.0.0.1", 1023⟩ = false ∧
    validParentProxy ⟨"10.0.0.1", 1024⟩ = true ∧
    validParentProxy ⟨"10.0.0.1", 65535⟩ = true ∧
    validParentProxy ⟨"10.0.0.1", 65536⟩ = false ∧
    validParentProxy ⟨"not-an-ip", 3128⟩ = false := by
  refine ⟨?_, by decide, by decide, by decide, by decide, by decide⟩
  intro pp
  unfold validParentProxy parentProxyErrors
  by_cases h1 : pp.address = ""
  · simp [h1]
  · rw [if_neg h1]
    by_cases h2 : goParseIP pp.address
    · rw [if_neg (by simpa using h2)]
      by_cases h3 : pp.port < 1024 ∨ 65535 < pp.port
      · rw [if_pos h3]
        simp only [List.nil_append]
        constructor
        · intro hcon
          cases hcon
        · intro hcon
          omega
      · rw [if_neg h3]
        simp only [List.append_nil, List.nil_append]
        constructor
        · intro _
          exact ⟨h1, h2, by omega, by omega⟩
        · intro _
          rfl
    · rw [if_pos (by simpa using h2)]
      constructor
      · intro hcon
        by_cases h3 : pp.port < 1024 ∨ 65535 < pp.port <;> simp [h3] at hcon
      · intro hcon
        exact absurd hcon.2.1 (by simpa using h2)

/-- Witness for `parent_proxy_validation_contract` at a concrete entry. -/
theorem parent_proxy_validation_contract_w :
    validParentProxy ⟨"10.96.215.26", 3128⟩ = true :=
  (parent_proxy_validation_contract.1 ⟨"10.96.215.26", 3128⟩).mpr (by decide)

set_option maxRecDepth 4000 in
/-- **C10**: a create request with an empty client ACL gets exactly the three
default rules — allow `127.0.0.1` at priority 10, allow `::1` at priority 20,
allow `10.0.0.0/8` at priority 30 — and the compiled `ip_allow.yaml` lists
them, in that order, before the two appended deny-all entries. -/
theorem create_default_client_acl (reqClientACL : List ClientACLInput)
    (h : reqClientACL = []) :
    aclInputsForCreate reqClientACL = defaultClientACLInputs ∧
    clientACLRows (aclInputsForCreate reqClientACL) =
      [⟨"127.0.0.1", .allow, 10⟩, ⟨"::1", .allow, 20⟩, ⟨"10.0.0.0/8", .allow, 30⟩] ∧
    generateIPAllowYaml (clientACLRows (aclInputsForCreate reqClientACL)) =
      "ip_allow:\n" ++ ipAllowEntry "127.0.0.1" "set_allow" ++ ipAllowEntry "::1" "set_allow" ++
        ipAllowEntry "10.0.0.0/8" "set_allow" ++
        ipAllowEntry "0/0" "set_deny" ++ ipAllowEntry "::/0" "set_deny" := by
  subst h
  refine ⟨rfl, rfl, ?_⟩
  decide

/-- Witness for `create_default_client_acl` at the empty request. -/
theorem create_default_client_acl_w :
    aclInputsForCreate [] = defaultClientACLInputs :=
  (create_default_client_acl [] rfl).1

end ATSPM
